import Mathlib

/-!
# MediaPruner queue subsystem: a Lean model of `backend/app/services/queue.py`,
# `backend/app/database.py` and the `refresh_metadata` handler environment.

Each definition carries a comment pointing at the source lines it embeds.
Stateful code is embedded as a small-step transition system (`Step`) over a
single claimed task, with the cooperative interleaving points of the asyncio
code (item boundaries and the in-handler suspension) made explicit.
-/

namespace MediaPruner

/-- Modelled from the spec: the `QueueStatus` enum.  The class itself
(`app/models.py` defines `QueueTask`/`QueueItem`/`QueueStatus` in the full
repository) is absent from the available sources — `queue.py` only imports it —
so the constructors and their lowercase string values are taken from the spec
(§3 Data Model: task statuses `queued, running, completed, failed, canceled,
deleted`; "All status values persist in lowercase"). -/
inductive QueueStatus where
  | queued
  | running
  | completed
  | failed
  | canceled
  | deleted
  deriving DecidableEq, Repr

/-- Modelled from the spec: `QueueStatus.<X>.value`, the lowercase string
stored in the `status` text column (spec §6.3). -/
def QueueStatus.value : QueueStatus → String
  | .queued => "queued"
  | .running => "running"
  | .completed => "completed"
  | .failed => "failed"
  | .canceled => "canceled"
  | .deleted => "deleted"

/-! ## EventBus: per-subscriber bounded buffer with drop-oldest
(`queue.py` lines 15-59). -/

/-- `_SUBSCRIBER_QUEUE_MAXSIZE = 10` (`queue.py` line 16): capacity of the
`asyncio.Queue` allocated per subscriber by `subscribe_events`. -/
def SUBSCRIBER_QUEUE_MAXSIZE : Nat := 10

/-- One publish against one subscriber buffer, from `_publish_event`
(`queue.py` lines 41-57): `put_nowait(sse)`; on `QueueFull` first
`get_nowait()` (dropping the oldest buffered message) and then
`put_nowait(sse)` again.  The buffer is a FIFO list, oldest message first;
with at most `SUBSCRIBER_QUEUE_MAXSIZE` messages buffered the second put
always succeeds, so the function is total: the producer never blocks. -/
def putNowaitDropOldest (buf : List String) (msg : String) : List String :=
  if buf.length < SUBSCRIBER_QUEUE_MAXSIZE then buf ++ [msg]
  else buf.drop 1 ++ [msg]

/-- A sequence of publishes against a subscriber that never reads, starting
from the empty buffer `subscribe_events` allocates (`queue.py` lines 19-23). -/
def publishSequence (msgs : List String) : List String :=
  msgs.foldl putNowaitDropOldest []

theorem length_putNowaitDropOldest (buf : List String) (msg : String)
    (h : buf.length ≤ SUBSCRIBER_QUEUE_MAXSIZE) :
    (putNowaitDropOldest buf msg).length ≤ SUBSCRIBER_QUEUE_MAXSIZE := by
  have h10 : SUBSCRIBER_QUEUE_MAXSIZE = 10 := rfl
  unfold putNowaitDropOldest
  split <;> simp [List.length_append, List.length_drop] <;> omega

theorem foldl_putNowaitDropOldest (msgs : List String) :
    ∀ buf : List String, buf.length ≤ SUBSCRIBER_QUEUE_MAXSIZE →
      msgs.foldl putNowaitDropOldest buf =
        (buf ++ msgs).drop (buf.length + msgs.length - SUBSCRIBER_QUEUE_MAXSIZE) := by
  have h10 : SUBSCRIBER_QUEUE_MAXSIZE = 10 := rfl
  induction msgs with
  | nil =>
      intro buf h
      simp only [List.foldl_nil, List.append_nil, List.length_nil, Nat.add_zero]
      rw [Nat.sub_eq_zero_of_le (by omega), List.drop_zero]
  | cons m rest ih =>
      intro buf h
      rw [List.foldl_cons]
      by_cases hlt : buf.length < SUBSCRIBER_QUEUE_MAXSIZE
      · have hput : putNowaitDropOldest buf m = buf ++ [m] := by
          unfold putNowaitDropOldest
          rw [if_pos hlt]
        rw [hput, ih (buf ++ [m]) (by simp; omega)]
        rw [List.append_assoc, List.singleton_append]
        congr 1
        simp
        omega
      · have hput : putNowaitDropOldest buf m = buf.drop 1 ++ [m] := by
          unfold putNowaitDropOldest
          rw [if_neg hlt]
        have hlen : buf.length = SUBSCRIBER_QUEUE_MAXSIZE := by omega
        have hge : 1 ≤ buf.length := by omega
        rw [hput, ih (buf.drop 1 ++ [m]) (by simp [List.length_drop]; omega)]
        have h1 : (buf.drop 1 ++ [m]).length + rest.length - SUBSCRIBER_QUEUE_MAXSIZE
            = rest.length := by
          simp [List.length_append, List.length_drop]
          omega
        have h2 : buf.length + (m :: rest).length - SUBSCRIBER_QUEUE_MAXSIZE
            = 1 + rest.length := by
          simp [List.length_cons]
          omega
        rw [h1, h2, List.append_assoc, List.singleton_append, ← List.drop_drop,
          List.drop_append_of_le_length hge]

/-- **C4.** EventBus drop-oldest (`queue.py` lines 19-23 and 41-57): for every
subscriber buffer (capacity 10) and every sequence of `N > 10` publishes with
no intervening reads, each publish against a full buffer drops the oldest
buffered message, so exactly 10 messages are retained and they are the 10 most
recently published; `publishSequence` is a total function of the publish
sequence, so the producer never blocks. -/
theorem eventbus_drop_oldest (msgs : List String)
    (h : SUBSCRIBER_QUEUE_MAXSIZE < msgs.length) :
    publishSequence msgs = msgs.drop (msgs.length - SUBSCRIBER_QUEUE_MAXSIZE) ∧
    (publishSequence msgs).length = SUBSCRIBER_QUEUE_MAXSIZE := by
  have hfold := foldl_putNowaitDropOldest msgs [] (by simp [SUBSCRIBER_QUEUE_MAXSIZE])
  simp at hfold
  unfold publishSequence
  constructor
  · exact hfold
  · rw [hfold, List.length_drop]
    omega

/-- Witness for C4: twelve publishes retain exactly the ten most recent. -/
theorem eventbus_drop_oldest_witness :
    SUBSCRIBER_QUEUE_MAXSIZE < (List.range 12).length ∧
    publishSequence ((List.range 12).map toString) =
      ((List.range 12).map toString).drop 2 := by
  refine ⟨by decide, ?_⟩
  have h := eventbus_drop_oldest ((List.range 12).map toString) (by decide)
  simpa using h.1

/-! ## Task / item lifecycle state machine

`QueueWorker.process_one` (`queue.py` lines 326-839), `cancel_task` (lines
203-247) and `clear_queued_tasks` (lines 250-297) mutate one claimed task and
its items.  The asyncio suspension points of `process_one` are the awaited
commits: the per-item boundary (refresh + status check + mark-item-running,
lines 350-364, with no intervening `await` between the refreshed check and
the commit that marks the item running), the handler body (lines 369-773,
one outcome committed at line 773), and finalization (lines 799-808).
`cancel_task` and the `current`-scope purge commit atomically and may
interleave at any of those points. -/

/-- One task row (`queue_tasks`, spec §6.3) together with its items' statuses
(`queue_items.status`, item at list position `k` has `index = k`, the order
`process_one` sorts by at line 350).  `canceledSet`/`finishedSet` record
whether `canceled_at`/`finished_at` have been written. -/
structure TaskState where
  status : QueueStatus
  items : List QueueStatus
  completedItems : Nat
  totalItems : Nat
  canceledSet : Bool
  finishedSet : Bool
  deriving DecidableEq, Repr

/-- Program counter of `process_one` over the claimed task:
`idle` (not inside `process_one`), `atBoundary k` (about to run the loop body
for the item with index `k`: the refresh/cancel check at lines 351-355),
`inHandler k` (item `k` committed as `running` at line 364, handler body in
flight), `finalizing` (after the loop, before lines 799-808). -/
inductive Phase where
  | idle
  | atBoundary (k : Nat)
  | inHandler (k : Nat)
  | finalizing
  deriving DecidableEq, Repr

/-- The state of the claimed task plus the worker's position in it. -/
structure WState where
  task : TaskState
  phase : Phase
  deriving DecidableEq, Repr

/-- Status of the item with index `k` (out-of-range defaults to `canceled`,
which no claim's hypotheses can confuse with an in-range item). -/
def itemAt (s : WState) (k : Nat) : QueueStatus :=
  s.task.items.getD k .canceled

/-- Number of items whose status is `completed` (the right-hand side of spec
invariant P1). -/
def countCompleted : List QueueStatus → Nat
  | [] => 0
  | st :: rest => (if st = QueueStatus.completed then 1 else 0) + countCompleted rest

/-- `create_task` (`queue.py` lines 81-107): a new task starts `queued` with
`completed_items = 0`, `total_items = len(items)`, and one `queued` item per
payload, inserted in caller order. -/
def createTask (n : Nat) : WState :=
  { task :=
      { status := .queued
        items := List.replicate n .queued
        completedItems := 0
        totalItems := n
        canceledSet := false
        finishedSet := false }
    phase := .idle }

/-- The item update performed by `cancel_task` and `clear_queued_tasks`
(`queue.py` lines 224-229 and 283-288). -/
def cancelItems (l : List QueueStatus) : List QueueStatus :=
  l.map fun st => if st = .queued ∨ st = .running then .canceled else st

/-- `cancel_task` (`queue.py` lines 210-231) applied to this (existing) task:
unconditionally sets the task row's status to `QueueStatus.DELETED` and
`canceled_at=now` (lines 217-221) — with no check of the current status — and
updates every item whose status is `queued` or `running` to `canceled`
(lines 224-229). -/
def cancelTaskStep (s : WState) : WState :=
  { s with
    task :=
      { s.task with
        status := .deleted
        canceledSet := true
        items := cancelItems s.task.items } }

/-- `clear_queued_tasks` (`queue.py` lines 259-289) as it affects one task it
selects: only tasks whose status is `queued` or `running` are selected (line
261); selected tasks are set to `deleted` (line 281) and their `queued` or
`running` items to `canceled` (lines 283-288).  `canceled_at` is not touched. -/
def clearCurrentStep (s : WState) : WState :=
  { s with
    task :=
      { s.task with
        status := .deleted
        items := cancelItems s.task.items } }

/-- Claiming (`queue.py` lines 333-344): `process_one` selects the oldest task
with status `queued` (line 334), marks it `running` with `started_at=now`
(lines 342-343) and commits; the loop then starts at the first item. -/
def claimStep (s : WState) : Option WState :=
  if s.task.status = .queued ∧ s.phase = .idle then
    some { task := { s.task with status := .running }, phase := .atBoundary 0 }
  else none

/-- The per-item boundary (`queue.py` lines 350-364): refresh the task row and
break out of the loop if its status is `canceled` or `deleted` (lines 352-355);
when the loop is exhausted fall through to finalization; skip items whose
status is not `queued` (lines 357-359); otherwise mark the item `running`
with `started_at=now` and commit (lines 362-364). -/
def boundaryStep (s : WState) : Option WState :=
  match s.phase with
  | .atBoundary k =>
      if s.task.status = .canceled ∨ s.task.status = .deleted then
        some { s with phase := .finalizing }
      else if h : k < s.task.items.length then
        if s.task.items.get ⟨k, h⟩ ≠ .queued then
          some { s with phase := .atBoundary (k + 1) }
        else
          some { s with
            task := { s.task with items := s.task.items.set k .running }
            phase := .inHandler k }
      else
        some { s with phase := .finalizing }
  | _ => none

/-- The handler's reported outcome for one item: success (`item.status =
COMPLETED`, e.g. lines 379-381) or failure (`item.status = FAILED`, e.g.
lines 466-467 or the catch-all at lines 765-768). -/
inductive Outcome where
  | ok
  | err
  deriving DecidableEq, Repr

/-- Committing the handler outcome for item `k` (`queue.py` lines 369-773):
the in-memory item object is written back regardless of what the row holds by
then, so the item's status is overwritten to `completed` (incrementing the
task's `completed_items`, e.g. lines 380-381) or to `failed`;
`finished_at` is set (line 772) and the session committed (line 773). -/
def handlerStep (s : WState) (oc : Outcome) : Option WState :=
  match s.phase with
  | .inHandler k =>
      match oc with
      | .ok =>
          some { task :=
                  { s.task with
                    items := s.task.items.set k .completed
                    completedItems := s.task.completedItems + 1 }
                 phase := .atBoundary (k + 1) }
      | .err =>
          some { task := { s.task with items := s.task.items.set k .failed }
                 phase := .atBoundary (k + 1) }
  | _ => none

/-- Finalization (`queue.py` lines 799-808): the guard checks only
`task.status != QueueStatus.CANCELED`; when it passes, the status is set to
`failed` if any item's status is `failed` and to `completed` otherwise, and
`finished_at` is set; when the status is `canceled`, nothing is written. -/
def finalizeStep (s : WState) : Option WState :=
  match s.phase with
  | .finalizing =>
      if s.task.status ≠ .canceled then
        some { task :=
                { s.task with
                  status :=
                    if s.task.items.any (· = .failed) then .failed else .completed
                  finishedSet := true }
               phase := .idle }
      else
        some { s with phase := .idle }
  | _ => none

/-- One interleaving step: a worker step of `process_one`, or a concurrent
`cancel_task` / `current`-scope `clear_queued_tasks` committed at one of the
worker's suspension points. -/
inductive Step : WState → WState → Prop where
  | claim {s s' : WState} : claimStep s = some s' → Step s s'
  | boundary {s s' : WState} : boundaryStep s = some s' → Step s s'
  | handler {s s' : WState} (oc : Outcome) : handlerStep s oc = some s' → Step s s'
  | finalize {s s' : WState} : finalizeStep s = some s' → Step s s'
  | cancel {s : WState} : Step s (cancelTaskStep s)
  | purgeCurrent {s : WState} :
      s.task.status = .queued ∨ s.task.status = .running → Step s (clearCurrentStep s)

/-- A state reachable from some freshly created task. -/
def Reachable (s : WState) : Prop :=
  ∃ n : Nat, Relation.ReflTransGen Step (createTask n) s

/-! ### Item-level helper lemmas -/

theorem getD_cancelItems (l : List QueueStatus) (j : Nat) :
    (cancelItems l).getD j .canceled
      = if l.getD j .canceled = .queued ∨ l.getD j .canceled = .running then
          .canceled
        else l.getD j .canceled := by
  unfold cancelItems
  rw [List.getD_eq_getElem?_getD, List.getD_eq_getElem?_getD, List.getElem?_map]
  cases h : l[j]? with
  | none => simp
  | some v => simp

theorem getD_cancelItems_ne_queued (l : List QueueStatus) (j : Nat) :
    (cancelItems l).getD j .canceled ≠ .queued := by
  rw [getD_cancelItems]
  split
  · simp
  · rename_i h
    intro hq
    exact h (Or.inl hq)

theorem getD_cancelItems_ne_running (l : List QueueStatus) (j : Nat) :
    (cancelItems l).getD j .canceled ≠ .running := by
  rw [getD_cancelItems]
  split
  · simp
  · rename_i h
    intro hq
    exact h (Or.inr hq)

theorem getD_cancelItems_of_queued (l : List QueueStatus) (j : Nat)
    (h : l.getD j .canceled = .queued) :
    (cancelItems l).getD j .canceled = .canceled := by
  rw [getD_cancelItems, if_pos (Or.inl h)]

theorem getD_cancelItems_of_canceled (l : List QueueStatus) (j : Nat)
    (h : l.getD j .canceled = .canceled) :
    (cancelItems l).getD j .canceled = .canceled := by
  rw [getD_cancelItems, if_neg (by rw [h]; simp)]
  exact h

theorem getD_set_self (l : List QueueStatus) (k : Nat) (v : QueueStatus)
    (h : k < l.length) :
    (l.set k v).getD k .canceled = v := by
  rw [List.getD_eq_getElem?_getD, List.getElem?_set_self h]
  rfl

theorem getD_set_ne (l : List QueueStatus) (k j : Nat) (v : QueueStatus)
    (h : k ≠ j) :
    (l.set k v).getD j .canceled = l.getD j .canceled := by
  rw [List.getD_eq_getElem?_getD, List.getElem?_set_ne h, ← List.getD_eq_getElem?_getD]

theorem getD_of_length_le (l : List QueueStatus) (j : Nat) (h : l.length ≤ j) :
    l.getD j .canceled = .canceled := by
  rw [List.getD_eq_getElem?_getD, List.getElem?_eq_none h]
  rfl

theorem countCompleted_le_length (l : List QueueStatus) :
    countCompleted l ≤ l.length := by
  induction l with
  | nil => simp [countCompleted]
  | cons st rest ih =>
      simp only [countCompleted, List.length_cons]
      split <;> omega

theorem countCompleted_replicate_queued (n : Nat) :
    countCompleted (List.replicate n .queued) = 0 := by
  induction n with
  | zero => rfl
  | succ m ih => simpa [List.replicate_succ, countCompleted] using ih

theorem countCompleted_set (l : List QueueStatus) (k : Nat) (v : QueueStatus)
    (hk : k < l.length) (hold : l.getD k .canceled ≠ .completed) :
    countCompleted (l.set k v)
      = countCompleted l + (if v = .completed then 1 else 0) := by
  induction l generalizing k with
  | nil => simp at hk
  | cons st rest ih =>
      cases k with
      | zero =>
          simp only [List.getD_cons_zero] at hold
          simp [List.set, countCompleted, if_neg hold]
          omega
      | succ m =>
          simp only [List.getD_cons_succ] at hold
          simp only [List.length_cons, Nat.succ_lt_succ_iff] at hk
          simp only [List.set, countCompleted, ih m hk hold]
          omega

theorem countCompleted_cancelItems (l : List QueueStatus) :
    countCompleted (cancelItems l) = countCompleted l := by
  induction l with
  | nil => rfl
  | cons st rest ih =>
      simp only [cancelItems, List.map_cons, countCompleted] at *
      rw [ih]
      cases st <;> simp

theorem getD_cancelItems_of_running (l : List QueueStatus) (j : Nat)
    (h : l.getD j .canceled = .running) :
    (cancelItems l).getD j .canceled = .canceled := by
  rw [getD_cancelItems, if_pos (Or.inr h)]

theorem itemAt_eq_get (s : WState) (k : Nat) (h : k < s.task.items.length) :
    itemAt s k = s.task.items.get ⟨k, h⟩ := by
  unfold itemAt
  rw [List.getD_eq_getElem?_getD, List.getElem?_eq_getElem h]
  rfl

/-! ### The inductive invariant of the reachable states -/

/-- The conjunction of structural facts that hold in every reachable state of
the task/worker/cancellation system. -/
structure Inv (s : WState) : Prop where
  lenEq : s.task.items.length = s.task.totalItems
  countEq : s.task.completedItems = countCompleted s.task.items
  queuedIdle : s.task.status = .queued → s.phase = .idle
  termIdle : s.task.status = .completed ∨ s.task.status = .failed → s.phase = .idle
  runInHandler : ∀ j, itemAt s j = .running → s.phase = .inHandler j
  inHandlerItem : ∀ j, s.phase = .inHandler j →
    j < s.task.items.length ∧ (itemAt s j = .running ∨ itemAt s j = .canceled)
  boundaryClean : ∀ k, s.phase = .atBoundary k → ∀ j, j < k → itemAt s j ≠ .queued
  inHandlerClean : ∀ k, s.phase = .inHandler k → ∀ j, j < k → itemAt s j ≠ .queued
  finalClean : s.phase = .finalizing → s.task.status = .running →
    ∀ j, itemAt s j ≠ .queued
  deadNoQueued : s.task.status ≠ .queued → s.task.status ≠ .running →
    ∀ j, itemAt s j ≠ .queued
  deadNoRunning : s.task.status = .canceled ∨ s.task.status = .deleted →
    ∀ j, itemAt s j ≠ .running

theorem itemAt_createTask (n j : Nat) :
    itemAt (createTask n) j = if j < n then .queued else .canceled := by
  unfold itemAt createTask
  simp only [List.getD_eq_getElem?_getD, List.getElem?_replicate]
  split <;> rfl

theorem inv_init (n : Nat) : Inv (createTask n) := by
  refine
    { lenEq := by simp [createTask]
      countEq := by simp [createTask, countCompleted_replicate_queued]
      queuedIdle := fun _ => rfl
      termIdle := fun h => by rcases h with h | h <;> simp [createTask] at h
      runInHandler := fun j hj => ?_
      inHandlerItem := fun j hj => by simp [createTask] at hj
      boundaryClean := fun k hk => by simp [createTask] at hk
      inHandlerClean := fun k hk => by simp [createTask] at hk
      finalClean := fun h => by simp [createTask] at h
      deadNoQueued := fun h _ => absurd rfl h
      deadNoRunning := fun h _ => by rcases h with h | h <;> simp [createTask] at h }
  rw [itemAt_createTask] at hj
  revert hj
  split <;> intro hj <;> exact absurd hj (by decide)

theorem inv_claim {s s' : WState} (inv : Inv s) (h : claimStep s = some s') :
    Inv s' := by
  unfold claimStep at h
  by_cases hc : s.task.status = .queued ∧ s.phase = .idle
  · rw [if_pos hc] at h
    obtain rfl := Option.some.inj h
    obtain ⟨hq, hp⟩ := hc
    exact
      { lenEq := inv.lenEq
        countEq := inv.countEq
        queuedIdle := by intro hx; simp at hx
        termIdle := by intro hx; rcases hx with hx | hx <;> simp at hx
        runInHandler := by
          intro j hj
          have hh := inv.runInHandler j hj
          rw [hp] at hh
          simp at hh
        inHandlerItem := by intro j hj; simp at hj
        boundaryClean := by
          intro k hk j hjk
          have h0 : (0 : Nat) = k := Phase.atBoundary.inj hk
          exact absurd hjk (by omega)
        inHandlerClean := by intro k hk; simp at hk
        finalClean := by intro hx; simp at hx
        deadNoQueued := by intro _ hx; exact absurd rfl hx
        deadNoRunning := by intro hx; rcases hx with hx | hx <;> simp at hx }
  · rw [if_neg hc] at h
    exact Option.noConfusion h

theorem inv_boundary {s s' : WState} (inv : Inv s) (h : boundaryStep s = some s') :
    Inv s' := by
  unfold boundaryStep at h
  cases hp : s.phase with
  | idle => rw [hp] at h; exact Option.noConfusion h
  | inHandler k => rw [hp] at h; exact Option.noConfusion h
  | finalizing => rw [hp] at h; exact Option.noConfusion h
  | atBoundary k =>
    rw [hp] at h
    replace h :
        (if s.task.status = .canceled ∨ s.task.status = .deleted then
          some { s with phase := Phase.finalizing }
        else if hk : k < s.task.items.length then
          if s.task.items.get ⟨k, hk⟩ ≠ .queued then
            some { s with phase := Phase.atBoundary (k + 1) }
          else
            some { task := { s.task with items := s.task.items.set k .running }
                   phase := Phase.inHandler k }
        else some { s with phase := Phase.finalizing }) = some s' := h
    by_cases hcd : s.task.status = .canceled ∨ s.task.status = .deleted
    · rw [if_pos hcd] at h
      obtain rfl := Option.some.inj h
      exact
        { lenEq := inv.lenEq
          countEq := inv.countEq
          queuedIdle := by
            intro hq
            have hh := inv.queuedIdle hq
            rw [hp] at hh
            simp at hh
          termIdle := by
            intro hq
            have hh := inv.termIdle hq
            rw [hp] at hh
            simp at hh
          runInHandler := by
            intro j hj
            have hh := inv.runInHandler j hj
            rw [hp] at hh
            simp at hh
          inHandlerItem := by intro j hj; simp at hj
          boundaryClean := by intro k' hk'; simp at hk'
          inHandlerClean := by intro k' hk'; simp at hk'
          finalClean := by
            intro _ hrun j
            rcases hcd with hc | hc <;> rw [hrun] at hc <;> simp at hc
          deadNoQueued := inv.deadNoQueued
          deadNoRunning := inv.deadNoRunning }
    · rw [if_neg hcd] at h
      by_cases hlen : k < s.task.items.length
      · rw [dif_pos hlen] at h
        by_cases hne : s.task.items.get ⟨k, hlen⟩ ≠ .queued
        · rw [if_pos hne] at h
          obtain rfl := Option.some.inj h
          exact
            { lenEq := inv.lenEq
              countEq := inv.countEq
              queuedIdle := by
                intro hq
                have hh := inv.queuedIdle hq
                rw [hp] at hh
                simp at hh
              termIdle := by
                intro hq
                have hh := inv.termIdle hq
                rw [hp] at hh
                simp at hh
              runInHandler := by
                intro j hj
                have hh := inv.runInHandler j hj
                rw [hp] at hh
                simp at hh
              inHandlerItem := by intro j hj; simp at hj
              boundaryClean := by
                intro k' hk' j hj
                have hk1 : k + 1 = k' := Phase.atBoundary.inj hk'
                by_cases hjk : j < k
                · exact inv.boundaryClean k hp j hjk
                · have hjeq : j = k := by omega
                  subst hjeq
                  show itemAt s j ≠ .queued
                  rw [itemAt_eq_get s j hlen]
                  exact hne
              inHandlerClean := by intro k' hk'; simp at hk'
              finalClean := by intro hx; simp at hx
              deadNoQueued := inv.deadNoQueued
              deadNoRunning := inv.deadNoRunning }
        · rw [if_neg hne] at h
          push_neg at hne
          obtain rfl := Option.some.inj h
          exact
            { lenEq := by
                show (s.task.items.set k .running).length = s.task.totalItems
                rw [List.length_set]
                exact inv.lenEq
              countEq := by
                show s.task.completedItems
                  = countCompleted (s.task.items.set k .running)
                rw [countCompleted_set _ _ _ hlen
                  (by rw [← itemAt_eq_get s k hlen] at hne
                      show itemAt s k ≠ .completed
                      rw [hne]
                      decide)]
                simpa using inv.countEq
              queuedIdle := by
                intro hq
                have hh := inv.queuedIdle hq
                rw [hp] at hh
                simp at hh
              termIdle := by
                intro hq
                have hh := inv.termIdle hq
                rw [hp] at hh
                simp at hh
              runInHandler := by
                intro j hj
                by_cases hjk : j = k
                · subst hjk; rfl
                · have hne2 : itemAt s j = .running := by
                    have := getD_set_ne s.task.items k j .running
                      (fun hkj => hjk hkj.symm)
                    unfold itemAt at hj ⊢
                    rw [← this]
                    exact hj
                  have hh := inv.runInHandler j hne2
                  rw [hp] at hh
                  simp at hh
              inHandlerItem := by
                intro j hj
                have hkj : k = j := Phase.inHandler.inj hj
                subst hkj
                refine ⟨by rw [List.length_set]; exact hlen, Or.inl ?_⟩
                show (s.task.items.set k .running).getD k .canceled = .running
                exact getD_set_self _ k _ hlen
              boundaryClean := by intro k' hk'; simp at hk'
              inHandlerClean := by
                intro k' hk' j hj
                have hkj : k = k' := Phase.inHandler.inj hk'
                subst hkj
                have hne3 := inv.boundaryClean k hp j hj
                show (s.task.items.set k .running).getD j .canceled ≠ .queued
                rw [getD_set_ne _ _ _ _ (by omega)]
                exact hne3
              finalClean := by intro hx; simp at hx
              deadNoQueued := by
                intro h1 h2 j
                exfalso
                cases hst : s.task.status with
                | queued => exact h1 hst
                | running => exact h2 hst
                | completed =>
                    have hh := inv.termIdle (Or.inl hst)
                    rw [hp] at hh
                    simp at hh
                | failed =>
                    have hh := inv.termIdle (Or.inr hst)
                    rw [hp] at hh
                    simp at hh
                | canceled => exact hcd (Or.inl hst)
                | deleted => exact hcd (Or.inr hst)
              deadNoRunning := by
                intro hx j
                exact absurd hx hcd }
      · rw [dif_neg hlen] at h
        obtain rfl := Option.some.inj h
        exact
          { lenEq := inv.lenEq
            countEq := inv.countEq
            queuedIdle := by
              intro hq
              have hh := inv.queuedIdle hq
              rw [hp] at hh
              simp at hh
            termIdle := by
              intro hq
              have hh := inv.termIdle hq
              rw [hp] at hh
              simp at hh
            runInHandler := by
              intro j hj
              have hh := inv.runInHandler j hj
              rw [hp] at hh
              simp at hh
            inHandlerItem := by intro j hj; simp at hj
            boundaryClean := by intro k' hk'; simp at hk'
            inHandlerClean := by intro k' hk'; simp at hk'
            finalClean := by
              intro _ _ j
              by_cases hjlen : j < s.task.items.length
              · exact inv.boundaryClean k hp j (by omega)
              · show s.task.items.getD j .canceled ≠ .queued
                rw [getD_of_length_le _ _ (by omega)]
                decide
            deadNoQueued := inv.deadNoQueued
            deadNoRunning := inv.deadNoRunning }

theorem inv_handler {s s' : WState} (oc : Outcome) (inv : Inv s)
    (h : handlerStep s oc = some s') : Inv s' := by
  unfold handlerStep at h
  cases hp : s.phase with
  | idle => rw [hp] at h; exact Option.noConfusion h
  | atBoundary k => rw [hp] at h; exact Option.noConfusion h
  | finalizing => rw [hp] at h; exact Option.noConfusion h
  | inHandler k =>
    rw [hp] at h
    obtain ⟨hklen, hitem⟩ := inv.inHandlerItem k hp
    have hkne : itemAt s k ≠ .completed := by
      rcases hitem with h1 | h1 <;> rw [h1] <;> decide
    cases oc with
    | ok =>
      replace h :
          (some { task :=
                    { s.task with
                      items := s.task.items.set k .completed
                      completedItems := s.task.completedItems + 1 }
                  phase := Phase.atBoundary (k + 1) } : Option WState) = some s' := h
      obtain rfl := Option.some.inj h
      exact
        { lenEq := by
            show (s.task.items.set k .completed).length = s.task.totalItems
            rw [List.length_set]
            exact inv.lenEq
          countEq := by
            show s.task.completedItems + 1
              = countCompleted (s.task.items.set k .completed)
            rw [countCompleted_set _ _ _ hklen hkne]
            simp [inv.countEq]
          queuedIdle := by
            intro hq
            have hh := inv.queuedIdle hq
            rw [hp] at hh
            simp at hh
          termIdle := by
            intro hq
            have hh := inv.termIdle hq
            rw [hp] at hh
            simp at hh
          runInHandler := by
            intro j hj
            exfalso
            by_cases hjk : j = k
            · subst hjk
              have hj2 : (s.task.items.set j QueueStatus.completed).getD j
                  QueueStatus.canceled = QueueStatus.running := hj
              rw [getD_set_self _ j _ hklen] at hj2
              simp at hj2
            · have hj2 : (s.task.items.set k QueueStatus.completed).getD j
                  QueueStatus.canceled = QueueStatus.running := hj
              rw [getD_set_ne _ _ _ _ (fun he => hjk he.symm)] at hj2
              have hh := inv.runInHandler j hj2
              rw [hp] at hh
              exact hjk (Phase.inHandler.inj hh).symm
          inHandlerItem := by intro j hj; simp at hj
          boundaryClean := by
            intro k' hk' j hj
            have hk1 : k + 1 = k' := Phase.atBoundary.inj hk'
            by_cases hjk : j < k
            · show (s.task.items.set k .completed).getD j .canceled ≠ .queued
              rw [getD_set_ne _ _ _ _ (by omega)]
              exact inv.inHandlerClean k hp j hjk
            · have hjeq : j = k := by omega
              subst hjeq
              show (s.task.items.set j .completed).getD j .canceled ≠ .queued
              rw [getD_set_self _ j _ hklen]
              decide
          inHandlerClean := by intro k' hk'; simp at hk'
          finalClean := by intro hx; simp at hx
          deadNoQueued := by
            intro h1 h2 j
            by_cases hjk : j = k
            · subst hjk
              show (s.task.items.set j .completed).getD j .canceled ≠ .queued
              rw [getD_set_self _ j _ hklen]
              decide
            · show (s.task.items.set k .completed).getD j .canceled ≠ .queued
              rw [getD_set_ne _ _ _ _ (fun he => hjk he.symm)]
              exact inv.deadNoQueued h1 h2 j
          deadNoRunning := by
            intro hcd j
            by_cases hjk : j = k
            · subst hjk
              show (s.task.items.set j .completed).getD j .canceled ≠ .running
              rw [getD_set_self _ j _ hklen]
              decide
            · show (s.task.items.set k .completed).getD j .canceled ≠ .running
              rw [getD_set_ne _ _ _ _ (fun he => hjk he.symm)]
              exact inv.deadNoRunning hcd j }
    | err =>
      replace h :
          (some { task := { s.task with items := s.task.items.set k .failed }
                  phase := Phase.atBoundary (k + 1) } : Option WState) = some s' := h
      obtain rfl := Option.some.inj h
      exact
        { lenEq := by
            show (s.task.items.set k .failed).length = s.task.totalItems
            rw [List.length_set]
            exact inv.lenEq
          countEq := by
            show s.task.completedItems = countCompleted (s.task.items.set k .failed)
            rw [countCompleted_set _ _ _ hklen hkne]
            simp [inv.countEq]
          queuedIdle := by
            intro hq
            have hh := inv.queuedIdle hq
            rw [hp] at hh
            simp at hh
          termIdle := by
            intro hq
            have hh := inv.termIdle hq
            rw [hp] at hh
            simp at hh
          runInHandler := by
            intro j hj
            exfalso
            by_cases hjk : j = k
            · subst hjk
              have hj2 : (s.task.items.set j QueueStatus.failed).getD j
                  QueueStatus.canceled = QueueStatus.running := hj
              rw [getD_set_self _ j _ hklen] at hj2
              simp at hj2
            · have hj2 : (s.task.items.set k QueueStatus.failed).getD j
                  QueueStatus.canceled = QueueStatus.running := hj
              rw [getD_set_ne _ _ _ _ (fun he => hjk he.symm)] at hj2
              have hh := inv.runInHandler j hj2
              rw [hp] at hh
              exact hjk (Phase.inHandler.inj hh).symm
          inHandlerItem := by intro j hj; simp at hj
          boundaryClean := by
            intro k' hk' j hj
            have hk1 : k + 1 = k' := Phase.atBoundary.inj hk'
            by_cases hjk : j < k
            · show (s.task.items.set k .failed).getD j .canceled ≠ .queued
              rw [getD_set_ne _ _ _ _ (by omega)]
              exact inv.inHandlerClean k hp j hjk
            · have hjeq : j = k := by omega
              subst hjeq
              show (s.task.items.set j .failed).getD j .canceled ≠ .queued
              rw [getD_set_self _ j _ hklen]
              decide
          inHandlerClean := by intro k' hk'; simp at hk'
          finalClean := by intro hx; simp at hx
          deadNoQueued := by
            intro h1 h2 j
            by_cases hjk : j = k
            · subst hjk
              show (s.task.items.set j .failed).getD j .canceled ≠ .queued
              rw [getD_set_self _ j _ hklen]
              decide
            · show (s.task.items.set k .failed).getD j .canceled ≠ .queued
              rw [getD_set_ne _ _ _ _ (fun he => hjk he.symm)]
              exact inv.deadNoQueued h1 h2 j
          deadNoRunning := by
            intro hcd j
            by_cases hjk : j = k
            · subst hjk
              show (s.task.items.set j .failed).getD j .canceled ≠ .running
              rw [getD_set_self _ j _ hklen]
              decide
            · show (s.task.items.set k .failed).getD j .canceled ≠ .running
              rw [getD_set_ne _ _ _ _ (fun he => hjk he.symm)]
              exact inv.deadNoRunning hcd j }

theorem inv_finalize {s s' : WState} (inv : Inv s) (h : finalizeStep s = some s') :
    Inv s' := by
  unfold finalizeStep at h
  cases hp : s.phase with
  | idle => rw [hp] at h; exact Option.noConfusion h
  | atBoundary k => rw [hp] at h; exact Option.noConfusion h
  | inHandler k => rw [hp] at h; exact Option.noConfusion h
  | finalizing =>
    rw [hp] at h
    replace h :
        (if s.task.status ≠ .canceled then
          some { task :=
                  { s.task with
                    status :=
                      if s.task.items.any (· = .failed) then QueueStatus.failed
                      else QueueStatus.completed
                    finishedSet := true }
                 phase := Phase.idle }
        else some { s with phase := Phase.idle }) = some s' := h
    have hnr : ∀ j, itemAt s j ≠ .running := by
      intro j hj
      have hh := inv.runInHandler j hj
      rw [hp] at hh
      simp at hh
    by_cases hnc : s.task.status ≠ .canceled
    · rw [if_pos hnc] at h
      obtain rfl := Option.some.inj h
      have hnq : ∀ j, itemAt s j ≠ .queued := by
        cases hst : s.task.status with
        | queued =>
            have hh := inv.queuedIdle hst
            rw [hp] at hh
            simp at hh
        | running => exact inv.finalClean hp hst
        | completed =>
            have hh := inv.termIdle (Or.inl hst)
            rw [hp] at hh
            simp at hh
        | failed =>
            have hh := inv.termIdle (Or.inr hst)
            rw [hp] at hh
            simp at hh
        | canceled => exact absurd hst hnc
        | deleted =>
            exact inv.deadNoQueued (by rw [hst]; decide) (by rw [hst]; decide)
      exact
        { lenEq := inv.lenEq
          countEq := inv.countEq
          queuedIdle := fun _ => rfl
          termIdle := fun _ => rfl
          runInHandler := fun j hj => absurd hj (hnr j)
          inHandlerItem := by intro j hj; simp at hj
          boundaryClean := by intro k' hk'; simp at hk'
          inHandlerClean := by intro k' hk'; simp at hk'
          finalClean := by intro hx; simp at hx
          deadNoQueued := fun _ _ j => hnq j
          deadNoRunning := fun _ j => hnr j }
    · rw [if_neg hnc] at h
      obtain rfl := Option.some.inj h
      push_neg at hnc
      exact
        { lenEq := inv.lenEq
          countEq := inv.countEq
          queuedIdle := fun _ => rfl
          termIdle := fun _ => rfl
          runInHandler := fun j hj => absurd hj (hnr j)
          inHandlerItem := by intro j hj; simp at hj
          boundaryClean := by intro k' hk'; simp at hk'
          inHandlerClean := by intro k' hk'; simp at hk'
          finalClean := by intro hx; simp at hx
          deadNoQueued := inv.deadNoQueued
          deadNoRunning := inv.deadNoRunning }

theorem inv_cancel {s : WState} (inv : Inv s) : Inv (cancelTaskStep s) := by
  unfold cancelTaskStep
  exact
    { lenEq := by
        show (cancelItems s.task.items).length = s.task.totalItems
        unfold cancelItems
        rw [List.length_map]
        exact inv.lenEq
      countEq := by
        show s.task.completedItems = countCompleted (cancelItems s.task.items)
        rw [countCompleted_cancelItems]
        exact inv.countEq
      queuedIdle := by intro hx; simp at hx
      termIdle := by intro hx; rcases hx with hx | hx <;> simp at hx
      runInHandler := fun j hj => absurd hj (getD_cancelItems_ne_running _ j)
      inHandlerItem := by
        intro j hj
        obtain ⟨hlt, hi⟩ := inv.inHandlerItem j hj
        refine ⟨?_, Or.inr ?_⟩
        · show j < (cancelItems s.task.items).length
          unfold cancelItems
          rw [List.length_map]
          exact hlt
        · rcases hi with h1 | h1
          · exact getD_cancelItems_of_running _ j h1
          · exact getD_cancelItems_of_canceled _ j h1
      boundaryClean := fun _ _ j _ => getD_cancelItems_ne_queued _ j
      inHandlerClean := fun _ _ j _ => getD_cancelItems_ne_queued _ j
      finalClean := by intro _ hx; simp at hx
      deadNoQueued := fun _ _ j => getD_cancelItems_ne_queued _ j
      deadNoRunning := fun _ j => getD_cancelItems_ne_running _ j }

theorem inv_purge {s : WState} (inv : Inv s) : Inv (clearCurrentStep s) := by
  unfold clearCurrentStep
  exact
    { lenEq := by
        show (cancelItems s.task.items).length = s.task.totalItems
        unfold cancelItems
        rw [List.length_map]
        exact inv.lenEq
      countEq := by
        show s.task.completedItems = countCompleted (cancelItems s.task.items)
        rw [countCompleted_cancelItems]
        exact inv.countEq
      queuedIdle := by intro hx; simp at hx
      termIdle := by intro hx; rcases hx with hx | hx <;> simp at hx
      runInHandler := fun j hj => absurd hj (getD_cancelItems_ne_running _ j)
      inHandlerItem := by
        intro j hj
        obtain ⟨hlt, hi⟩ := inv.inHandlerItem j hj
        refine ⟨?_, Or.inr ?_⟩
        · show j < (cancelItems s.task.items).length
          unfold cancelItems
          rw [List.length_map]
          exact hlt
        · rcases hi with h1 | h1
          · exact getD_cancelItems_of_running _ j h1
          · exact getD_cancelItems_of_canceled _ j h1
      boundaryClean := fun _ _ j _ => getD_cancelItems_ne_queued _ j
      inHandlerClean := fun _ _ j _ => getD_cancelItems_ne_queued _ j
      finalClean := by intro _ hx; simp at hx
      deadNoQueued := fun _ _ j => getD_cancelItems_ne_queued _ j
      deadNoRunning := fun _ j => getD_cancelItems_ne_running _ j }

theorem inv_step {s s' : WState} (inv : Inv s) (h : Step s s') : Inv s' := by
  cases h with
  | claim h => exact inv_claim inv h
  | boundary h => exact inv_boundary inv h
  | handler oc h => exact inv_handler oc inv h
  | finalize h => exact inv_finalize inv h
  | cancel => exact inv_cancel inv
  | purgeCurrent hc => exact inv_purge inv

/-- Every reachable state satisfies the invariant. -/
theorem reachable_inv {s : WState} (h : Reachable s) : Inv s := by
  obtain ⟨n, hrtc⟩ := h
  induction hrtc with
  | refl => exact inv_init n
  | tail hab hbc ih => exact inv_step ih hbc

/-! ### Dead states: tasks that have left `queued`/`running` for good -/

/-- A task that can never again start an item: terminal-or-deleted status,
worker already out of the loop when the status is `completed`/`failed`, and
no item left `queued` or `running`. -/
structure Dead (s : WState) : Prop where
  statusDead : s.task.status = .canceled ∨ s.task.status = .deleted ∨
    s.task.status = .completed ∨ s.task.status = .failed
  termIdle : s.task.status = .completed ∨ s.task.status = .failed → s.phase = .idle
  noQueued : ∀ j, itemAt s j ≠ .queued
  noRunning : ∀ j, itemAt s j ≠ .running

theorem dead_of_inv {s : WState} (inv : Inv s)
    (hcd : s.task.status = .canceled ∨ s.task.status = .deleted) : Dead s :=
  { statusDead := by rcases hcd with hc | hc
                     · exact Or.inl hc
                     · exact Or.inr (Or.inl hc)
    termIdle := inv.termIdle
    noQueued := inv.deadNoQueued
      (by rcases hcd with hc | hc <;> rw [hc] <;> decide)
      (by rcases hcd with hc | hc <;> rw [hc] <;> decide)
    noRunning := inv.deadNoRunning hcd }

theorem dead_cancelTaskStep (s : WState) : Dead (cancelTaskStep s) := by
  unfold cancelTaskStep
  exact
    { statusDead := Or.inr (Or.inl rfl)
      termIdle := by intro hx; rcases hx with hx | hx <;> simp at hx
      noQueued := fun j => getD_cancelItems_ne_queued _ j
      noRunning := fun j => getD_cancelItems_ne_running _ j }

theorem dead_clearCurrentStep (s : WState) : Dead (clearCurrentStep s) := by
  unfold clearCurrentStep
  exact
    { statusDead := Or.inr (Or.inl rfl)
      termIdle := by intro hx; rcases hx with hx | hx <;> simp at hx
      noQueued := fun j => getD_cancelItems_ne_queued _ j
      noRunning := fun j => getD_cancelItems_ne_running _ j }

theorem dead_step {s s' : WState} (hd : Dead s) (h : Step s s') : Dead s' := by
  cases h with
  | claim h =>
      exfalso
      unfold claimStep at h
      by_cases hc : s.task.status = .queued ∧ s.phase = .idle
      · rcases hd.statusDead with h1 | h1 | h1 | h1 <;> rw [hc.1] at h1 <;> simp at h1
      · rw [if_neg hc] at h
        exact Option.noConfusion h
  | boundary h =>
      unfold boundaryStep at h
      cases hp : s.phase with
      | idle => rw [hp] at h; exact Option.noConfusion h
      | inHandler k => rw [hp] at h; exact Option.noConfusion h
      | finalizing => rw [hp] at h; exact Option.noConfusion h
      | atBoundary k =>
        rw [hp] at h
        replace h :
            (if s.task.status = .canceled ∨ s.task.status = .deleted then
              some { s with phase := Phase.finalizing }
            else if hk : k < s.task.items.length then
              if s.task.items.get ⟨k, hk⟩ ≠ .queued then
                some { s with phase := Phase.atBoundary (k + 1) }
              else
                some { task := { s.task with items := s.task.items.set k .running }
                       phase := Phase.inHandler k }
            else some { s with phase := Phase.finalizing }) = some s' := h
        have hcd : s.task.status = .canceled ∨ s.task.status = .deleted := by
          rcases hd.statusDead with h1 | h1 | h1 | h1
          · exact Or.inl h1
          · exact Or.inr h1
          · have hh := hd.termIdle (Or.inl h1)
            rw [hp] at hh
            simp at hh
          · have hh := hd.termIdle (Or.inr h1)
            rw [hp] at hh
            simp at hh
        rw [if_pos hcd] at h
        obtain rfl := Option.some.inj h
        exact
          { statusDead := hd.statusDead
            termIdle := by
              intro hx
              rcases hcd with hc | hc <;> rcases hx with h1 | h1 <;>
                rw [hc] at h1 <;> simp at h1
            noQueued := hd.noQueued
            noRunning := hd.noRunning }
  | handler oc h =>
      unfold handlerStep at h
      cases hp : s.phase with
      | idle => rw [hp] at h; exact Option.noConfusion h
      | atBoundary k => rw [hp] at h; exact Option.noConfusion h
      | finalizing => rw [hp] at h; exact Option.noConfusion h
      | inHandler k =>
        rw [hp] at h
        have hcd : s.task.status = .canceled ∨ s.task.status = .deleted := by
          rcases hd.statusDead with h1 | h1 | h1 | h1
          · exact Or.inl h1
          · exact Or.inr h1
          · have hh := hd.termIdle (Or.inl h1)
            rw [hp] at hh
            simp at hh
          · have hh := hd.termIdle (Or.inr h1)
            rw [hp] at hh
            simp at hh
        cases oc with
        | ok =>
          replace h :
              (some { task :=
                        { s.task with
                          items := s.task.items.set k .completed
                          completedItems := s.task.completedItems + 1 }
                      phase := Phase.atBoundary (k + 1) } : Option WState) = some s' := h
          obtain rfl := Option.some.inj h
          refine
            { statusDead := hd.statusDead
              termIdle := by
                intro hx
                rcases hcd with hc | hc <;> rcases hx with h1 | h1 <;>
                  rw [hc] at h1 <;> simp at h1
              noQueued := ?_
              noRunning := ?_ }
          · intro j
            by_cases hjk : j = k
            · subst hjk
              show (s.task.items.set j .completed).getD j .canceled ≠ .queued
              by_cases hlt : j < s.task.items.length
              · rw [getD_set_self _ j _ hlt]; decide
              · rw [List.getD_eq_getElem?_getD, List.getElem?_eq_none
                  (by rw [List.length_set]; omega)]
                decide
            · show (s.task.items.set k .completed).getD j .canceled ≠ .queued
              rw [getD_set_ne _ _ _ _ (fun he => hjk he.symm)]
              exact hd.noQueued j
          · intro j
            by_cases hjk : j = k
            · subst hjk
              show (s.task.items.set j .completed).getD j .canceled ≠ .running
              by_cases hlt : j < s.task.items.length
              · rw [getD_set_self _ j _ hlt]; decide
              · rw [List.getD_eq_getElem?_getD, List.getElem?_eq_none
                  (by rw [List.length_set]; omega)]
                decide
            · show (s.task.items.set k .completed).getD j .canceled ≠ .running
              rw [getD_set_ne _ _ _ _ (fun he => hjk he.symm)]
              exact hd.noRunning j
        | err =>
          replace h :
              (some { task := { s.task with items := s.task.items.set k .failed }
                      phase := Phase.atBoundary (k + 1) } : Option WState) = some s' := h
          obtain rfl := Option.some.inj h
          refine
            { statusDead := hd.statusDead
              termIdle := by
                intro hx
                rcases hcd with hc | hc <;> rcases hx with h1 | h1 <;>
                  rw [hc] at h1 <;> simp at h1
              noQueued := ?_
              noRunning := ?_ }
          · intro j
            by_cases hjk : j = k
            · subst hjk
              show (s.task.items.set j .failed).getD j .canceled ≠ .queued
              by_cases hlt : j < s.task.items.length
              · rw [getD_set_self _ j _ hlt]; decide
              · rw [List.getD_eq_getElem?_getD, List.getElem?_eq_none
                  (by rw [List.length_set]; omega)]
                decide
            · show (s.task.items.set k .failed).getD j .canceled ≠ .queued
              rw [getD_set_ne _ _ _ _ (fun he => hjk he.symm)]
              exact hd.noQueued j
          · intro j
            by_cases hjk : j = k
            · subst hjk
              show (s.task.items.set j .failed).getD j .canceled ≠ .running
              by_cases hlt : j < s.task.items.length
              · rw [getD_set_self _ j _ hlt]; decide
              · rw [List.getD_eq_getElem?_getD, List.getElem?_eq_none
                  (by rw [List.length_set]; omega)]
                decide
            · show (s.task.items.set k .failed).getD j .canceled ≠ .running
              rw [getD_set_ne _ _ _ _ (fun he => hjk he.symm)]
              exact hd.noRunning j
  | finalize h =>
      unfold finalizeStep at h
      cases hp : s.phase with
      | idle => rw [hp] at h; exact Option.noConfusion h
      | atBoundary k => rw [hp] at h; exact Option.noConfusion h
      | inHandler k => rw [hp] at h; exact Option.noConfusion h
      | finalizing =>
        rw [hp] at h
        replace h :
            (if s.task.status ≠ .canceled then
              some { task :=
                      { s.task with
                        status :=
                          if s.task.items.any (· = .failed) then QueueStatus.failed
                          else QueueStatus.completed
                        finishedSet := true }
                     phase := Phase.idle }
            else some { s with phase := Phase.idle }) = some s' := h
        by_cases hnc : s.task.status ≠ .canceled
        · rw [if_pos hnc] at h
          obtain rfl := Option.some.inj h
          exact
            { statusDead := by
                by_cases hf : s.task.items.any (· = .failed)
                · show (if s.task.items.any (· = .failed) then QueueStatus.failed
                    else QueueStatus.completed) = .canceled ∨ _
                  rw [if_pos hf]
                  exact Or.inr (Or.inr (Or.inr rfl))
                · show (if s.task.items.any (· = .failed) then QueueStatus.failed
                    else QueueStatus.completed) = .canceled ∨ _
                  rw [if_neg hf]
                  exact Or.inr (Or.inr (Or.inl rfl))
              termIdle := fun _ => rfl
              noQueued := hd.noQueued
              noRunning := hd.noRunning }
        · rw [if_neg hnc] at h
          obtain rfl := Option.some.inj h
          exact
            { statusDead := hd.statusDead
              termIdle := by
                push_neg at hnc
                intro hx
                rcases hx with h1 | h1 <;> rw [hnc] at h1
              noQueued := hd.noQueued
              noRunning := hd.noRunning }
  | cancel => exact dead_cancelTaskStep s
  | purgeCurrent hc =>
      exfalso
      rcases hc with hc | hc <;>
        rcases hd.statusDead with h1 | h1 | h1 | h1 <;> rw [hc] at h1 <;> simp at h1

theorem dead_rtc {s s' : WState} (hd : Dead s)
    (h : Relation.ReflTransGen Step s s') : Dead s' := by
  induction h with
  | refl => exact hd
  | tail hab hbc ih => exact dead_step ih hbc

/-- Once dead with item `k` canceled and no handler in flight on `k`, item `k`
stays `canceled` through every further step. -/
theorem canceled_persists_step {s s' : WState} (k : Nat) (hd : Dead s)
    (hc : itemAt s k = .canceled) (hnih : ∀ j, s.phase = .inHandler j → j ≠ k)
    (h : Step s s') :
    itemAt s' k = .canceled ∧ ∀ j, s'.phase = .inHandler j → j ≠ k := by
  cases h with
  | claim h =>
      exfalso
      unfold claimStep at h
      by_cases hcc : s.task.status = .queued ∧ s.phase = .idle
      · rcases hd.statusDead with h1 | h1 | h1 | h1 <;> rw [hcc.1] at h1 <;> simp at h1
      · rw [if_neg hcc] at h
        exact Option.noConfusion h
  | boundary h =>
      unfold boundaryStep at h
      cases hp : s.phase with
      | idle => rw [hp] at h; exact Option.noConfusion h
      | inHandler j => rw [hp] at h; exact Option.noConfusion h
      | finalizing => rw [hp] at h; exact Option.noConfusion h
      | atBoundary j =>
        rw [hp] at h
        replace h :
            (if s.task.status = .canceled ∨ s.task.status = .deleted then
              some { s with phase := Phase.finalizing }
            else if hk : j < s.task.items.length then
              if s.task.items.get ⟨j, hk⟩ ≠ .queued then
                some { s with phase := Phase.atBoundary (j + 1) }
              else
                some { task := { s.task with items := s.task.items.set j .running }
                       phase := Phase.inHandler j }
            else some { s with phase := Phase.finalizing }) = some s' := h
        have hcd : s.task.status = .canceled ∨ s.task.status = .deleted := by
          rcases hd.statusDead with h1 | h1 | h1 | h1
          · exact Or.inl h1
          · exact Or.inr h1
          · have hh := hd.termIdle (Or.inl h1)
            rw [hp] at hh
            simp at hh
          · have hh := hd.termIdle (Or.inr h1)
            rw [hp] at hh
            simp at hh
        rw [if_pos hcd] at h
        obtain rfl := Option.some.inj h
        exact ⟨hc, by intro j' hj'; simp at hj'⟩
  | handler oc h =>
      unfold handlerStep at h
      cases hp : s.phase with
      | idle => rw [hp] at h; exact Option.noConfusion h
      | atBoundary j => rw [hp] at h; exact Option.noConfusion h
      | finalizing => rw [hp] at h; exact Option.noConfusion h
      | inHandler j =>
        rw [hp] at h
        have hjk : j ≠ k := hnih j hp
        cases oc with
        | ok =>
          replace h :
              (some { task :=
                        { s.task with
                          items := s.task.items.set j .completed
                          completedItems := s.task.completedItems + 1 }
                      phase := Phase.atBoundary (j + 1) } : Option WState) = some s' := h
          obtain rfl := Option.some.inj h
          refine ⟨?_, by intro j' hj'; simp at hj'⟩
          show (s.task.items.set j .completed).getD k .canceled = .canceled
          rw [getD_set_ne _ _ _ _ hjk]
          exact hc
        | err =>
          replace h :
              (some { task := { s.task with items := s.task.items.set j .failed }
                      phase := Phase.atBoundary (j + 1) } : Option WState) = some s' := h
          obtain rfl := Option.some.inj h
          refine ⟨?_, by intro j' hj'; simp at hj'⟩
          show (s.task.items.set j .failed).getD k .canceled = .canceled
          rw [getD_set_ne _ _ _ _ hjk]
          exact hc
  | finalize h =>
      unfold finalizeStep at h
      cases hp : s.phase with
      | idle => rw [hp] at h; exact Option.noConfusion h
      | atBoundary j => rw [hp] at h; exact Option.noConfusion h
      | inHandler j => rw [hp] at h; exact Option.noConfusion h
      | finalizing =>
        rw [hp] at h
        replace h :
            (if s.task.status ≠ .canceled then
              some { task :=
                      { s.task with
                        status :=
                          if s.task.items.any (· = .failed) then QueueStatus.failed
                          else QueueStatus.completed
                        finishedSet := true }
                     phase := Phase.idle }
            else some { s with phase := Phase.idle }) = some s' := h
        by_cases hnc : s.task.status ≠ .canceled
        · rw [if_pos hnc] at h
          obtain rfl := Option.some.inj h
          exact ⟨hc, by intro j' hj'; simp at hj'⟩
        · rw [if_neg hnc] at h
          obtain rfl := Option.some.inj h
          exact ⟨hc, by intro j' hj'; simp at hj'⟩
  | cancel =>
      refine ⟨getD_cancelItems_of_canceled _ k hc, ?_⟩
      intro j hj
      exact hnih j hj
  | purgeCurrent hcc =>
      exfalso
      rcases hcc with hcc | hcc <;>
        rcases hd.statusDead with h1 | h1 | h1 | h1 <;> rw [hcc] at h1 <;> simp at h1

theorem canceled_persists {s s' : WState} (k : Nat) (hd : Dead s)
    (hc : itemAt s k = .canceled) (hnih : ∀ j, s.phase = .inHandler j → j ≠ k)
    (h : Relation.ReflTransGen Step s s') :
    itemAt s' k = .canceled ∧ ∀ j, s'.phase = .inHandler j → j ≠ k := by
  induction h with
  | refl => exact ⟨hc, hnih⟩
  | tail hab hbc ih => exact canceled_persists_step k (dead_rtc hd hab) ih.1 ih.2 hbc

/-! ### Status-transition characterizations of the individual operations -/

theorem claimStep_status {s s' : WState} (h : claimStep s = some s') :
    s.task.status = .queued ∧ s'.task.status = .running := by
  unfold claimStep at h
  by_cases hc : s.task.status = .queued ∧ s.phase = .idle
  · rw [if_pos hc] at h
    obtain rfl := Option.some.inj h
    exact ⟨hc.1, rfl⟩
  · rw [if_neg hc] at h
    exact Option.noConfusion h

theorem boundaryStep_status {s s' : WState} (h : boundaryStep s = some s') :
    s'.task.status = s.task.status := by
  unfold boundaryStep at h
  cases hp : s.phase with
  | idle => rw [hp] at h; exact Option.noConfusion h
  | inHandler k => rw [hp] at h; exact Option.noConfusion h
  | finalizing => rw [hp] at h; exact Option.noConfusion h
  | atBoundary k =>
    rw [hp] at h
    replace h :
        (if s.task.status = .canceled ∨ s.task.status = .deleted then
          some { s with phase := Phase.finalizing }
        else if hk : k < s.task.items.length then
          if s.task.items.get ⟨k, hk⟩ ≠ .queued then
            some { s with phase := Phase.atBoundary (k + 1) }
          else
            some { task := { s.task with items := s.task.items.set k .running }
                   phase := Phase.inHandler k }
        else some { s with phase := Phase.finalizing }) = some s' := h
    by_cases hcd : s.task.status = .canceled ∨ s.task.status = .deleted
    · rw [if_pos hcd] at h
      obtain rfl := Option.some.inj h
      rfl
    · rw [if_neg hcd] at h
      by_cases hlen : k < s.task.items.length
      · rw [dif_pos hlen] at h
        by_cases hne : s.task.items.get ⟨k, hlen⟩ ≠ .queued
        · rw [if_pos hne] at h
          obtain rfl := Option.some.inj h
          rfl
        · rw [if_neg hne] at h
          obtain rfl := Option.some.inj h
          rfl
      · rw [dif_neg hlen] at h
        obtain rfl := Option.some.inj h
        rfl

theorem handlerStep_status {s s' : WState} (oc : Outcome)
    (h : handlerStep s oc = some s') : s'.task.status = s.task.status := by
  unfold handlerStep at h
  cases hp : s.phase with
  | idle => rw [hp] at h; exact Option.noConfusion h
  | atBoundary k => rw [hp] at h; exact Option.noConfusion h
  | finalizing => rw [hp] at h; exact Option.noConfusion h
  | inHandler k =>
    rw [hp] at h
    cases oc with
    | ok =>
      replace h :
          (some { task :=
                    { s.task with
                      items := s.task.items.set k .completed
                      completedItems := s.task.completedItems + 1 }
                  phase := Phase.atBoundary (k + 1) } : Option WState) = some s' := h
      obtain rfl := Option.some.inj h
      rfl
    | err =>
      replace h :
          (some { task := { s.task with items := s.task.items.set k .failed }
                  phase := Phase.atBoundary (k + 1) } : Option WState) = some s' := h
      obtain rfl := Option.some.inj h
      rfl

theorem finalizeStep_phase {s s' : WState} (h : finalizeStep s = some s') :
    s.phase = .finalizing := by
  unfold finalizeStep at h
  cases hp : s.phase with
  | idle => rw [hp] at h; exact Option.noConfusion h
  | atBoundary k => rw [hp] at h; exact Option.noConfusion h
  | inHandler k => rw [hp] at h; exact Option.noConfusion h
  | finalizing => rfl

theorem finalizeStep_status {s s' : WState} (h : finalizeStep s = some s') :
    (s.task.status = .canceled ∧ s'.task.status = .canceled) ∨
    (s.task.status ≠ .canceled ∧
      (s'.task.status = .completed ∨ s'.task.status = .failed)) := by
  unfold finalizeStep at h
  cases hp : s.phase with
  | idle => rw [hp] at h; exact Option.noConfusion h
  | atBoundary k => rw [hp] at h; exact Option.noConfusion h
  | inHandler k => rw [hp] at h; exact Option.noConfusion h
  | finalizing =>
    rw [hp] at h
    replace h :
        (if s.task.status ≠ .canceled then
          some { task :=
                  { s.task with
                    status :=
                      if s.task.items.any (· = .failed) then QueueStatus.failed
                      else QueueStatus.completed
                    finishedSet := true }
                 phase := Phase.idle }
        else some { s with phase := Phase.idle }) = some s' := h
    by_cases hnc : s.task.status ≠ .canceled
    · rw [if_pos hnc] at h
      obtain rfl := Option.some.inj h
      right
      refine ⟨hnc, ?_⟩
      show (if s.task.items.any (· = .failed) then QueueStatus.failed
        else QueueStatus.completed) = .completed ∨
        (if s.task.items.any (· = .failed) then QueueStatus.failed
          else QueueStatus.completed) = .failed
      by_cases hf : s.task.items.any (· = .failed)
      · rw [if_pos hf]
        exact Or.inr rfl
      · rw [if_neg hf]
        exact Or.inl rfl
    · rw [if_neg hnc] at h
      obtain rfl := Option.some.inj h
      push_neg at hnc
      exact Or.inl ⟨hnc, hnc⟩

/-! ### Claim theorems on the lifecycle state machine -/

/-- The states of the concrete run used for C1: a two-item task, claimed,
item 0 marked running, `cancel_task` committed mid-handler, the handler
outcome committed, loop broken, task finalized. -/
def c1Claimed : WState :=
  { task := { status := .running, items := [.queued, .queued],
              completedItems := 0, totalItems := 2,
              canceledSet := false, finishedSet := false }
    phase := .atBoundary 0 }

def c1ItemRunning : WState :=
  { task := { status := .running, items := [.running, .queued],
              completedItems := 0, totalItems := 2,
              canceledSet := false, finishedSet := false }
    phase := .inHandler 0 }

def c1Canceled : WState :=
  { task := { status := .deleted, items := [.canceled, .canceled],
              completedItems := 0, totalItems := 2,
              canceledSet := true, finishedSet := false }
    phase := .inHandler 0 }

def c1AfterHandler : WState :=
  { task := { status := .deleted, items := [.completed, .canceled],
              completedItems := 1, totalItems := 2,
              canceledSet := true, finishedSet := false }
    phase := .atBoundary 1 }

def c1Broken : WState :=
  { task := { status := .deleted, items := [.completed, .canceled],
              completedItems := 1, totalItems := 2,
              canceledSet := true, finishedSet := false }
    phase := .finalizing }

def c1Final : WState :=
  { task := { status := .completed, items := [.completed, .canceled],
              completedItems := 1, totalItems := 2,
              canceledSet := true, finishedSet := true }
    phase := .idle }

/-- **C1 (code defect).** The finalization guard (`queue.py` line 800) checks
only `task.status != QueueStatus.CANCELED`, while `cancel_task` stores
`QueueStatus.DELETED` (line 220).  Concrete run: a two-item task is claimed,
item 0 is marked running, `cancel_task` commits while the handler is in
flight (task `deleted`, both remaining items `canceled`), the handler outcome
is committed, the loop breaks at the next boundary — and finalization then
overwrites `deleted` with `completed` and sets `finished_at`, instead of
leaving the cancellation status in place. -/
theorem finalize_overwrites_deleted :
    Relation.ReflTransGen Step (createTask 2) c1Canceled ∧
    c1Canceled.task.status = .deleted ∧
    Relation.ReflTransGen Step c1Canceled c1Final ∧
    c1Final.task.status = .completed ∧
    c1Final.task.finishedSet = true ∧
    QueueStatus.completed ≠ QueueStatus.deleted := by
  have h1 : Step (createTask 2) c1Claimed := Step.claim (by decide)
  have h2 : Step c1Claimed c1ItemRunning := Step.boundary (by decide)
  have h3 : Step c1ItemRunning c1Canceled := by
    have hcc : cancelTaskStep c1ItemRunning = c1Canceled := by decide
    rw [← hcc]
    exact Step.cancel
  have h4 : Step c1Canceled c1AfterHandler := Step.handler Outcome.ok (by decide)
  have h5 : Step c1AfterHandler c1Broken := Step.boundary (by decide)
  have h6 : Step c1Broken c1Final := Step.finalize (by decide)
  refine ⟨?_, rfl, ?_, rfl, rfl, by decide⟩
  · exact ((Relation.ReflTransGen.single h1).tail h2).tail h3
  · exact ((Relation.ReflTransGen.single h4).tail h5).tail h6

/-- **C2.** Once a task's status is `canceled` or `deleted`, no item of that
task is ever `running` afterwards (in particular no item subsequently
transitions to `running`); and after `cancel_task` commits, every item of the
task that was `queued` at that commit is `canceled` and stays `canceled` in
every later state, so it never runs. -/
theorem cancel_no_subsequent_running :
    (∀ s s' : WState, Reachable s →
        s.task.status = .canceled ∨ s.task.status = .deleted →
        Relation.ReflTransGen Step s s' →
        ∀ k, itemAt s' k ≠ .running) ∧
    (∀ s s' : WState, Reachable s →
        Relation.ReflTransGen Step (cancelTaskStep s) s' →
        ∀ k, itemAt s k = .queued → itemAt s' k = .canceled) := by
  constructor
  · intro s s' hre hcd hrtc k
    exact (dead_rtc (dead_of_inv (reachable_inv hre) hcd) hrtc).noRunning k
  · intro s s' hre hrtc k hq
    have inv := reachable_inv hre
    have hc : itemAt (cancelTaskStep s) k = .canceled :=
      getD_cancelItems_of_queued _ k hq
    have hnih : ∀ j, (cancelTaskStep s).phase = .inHandler j → j ≠ k := by
      intro j hj hjk
      subst hjk
      obtain ⟨_, hi⟩ := inv.inHandlerItem j hj
      rcases hi with h1 | h1 <;> rw [hq] at h1 <;> exact absurd h1 (by decide)
    exact (canceled_persists k (dead_cancelTaskStep s) hc hnih hrtc).1

/-- Witness for C2: cancel a freshly created one-item task; its queued item is
`canceled` and not `running`, now and later. -/
theorem cancel_no_subsequent_running_witness :
    itemAt (cancelTaskStep (createTask 1)) 0 ≠ .running ∧
    itemAt (cancelTaskStep (createTask 1)) 0 = .canceled := by
  constructor
  · exact cancel_no_subsequent_running.1 (cancelTaskStep (createTask 1))
      (cancelTaskStep (createTask 1))
      ⟨1, Relation.ReflTransGen.single Step.cancel⟩ (Or.inr rfl)
      Relation.ReflTransGen.refl 0
  · exact cancel_no_subsequent_running.2 (createTask 1)
      (cancelTaskStep (createTask 1)) ⟨1, Relation.ReflTransGen.refl⟩
      Relation.ReflTransGen.refl 0 (by decide)

/-- The states of the empty-task run used for C3: claim an empty task, fall
through the loop, finalize as `completed`. -/
def c3Claimed : WState :=
  { task := { status := .running, items := [], completedItems := 0,
              totalItems := 0, canceledSet := false, finishedSet := false }
    phase := .atBoundary 0 }

def c3Finalizing : WState :=
  { task := { status := .running, items := [], completedItems := 0,
              totalItems := 0, canceledSet := false, finishedSet := false }
    phase := .finalizing }

def c3Completed : WState :=
  { task := { status := .completed, items := [], completedItems := 0,
              totalItems := 0, canceledSet := false, finishedSet := true }
    phase := .idle }

theorem c3Completed_reachable :
    Relation.ReflTransGen Step (createTask 0) c3Completed := by
  have h1 : Step (createTask 0) c3Claimed := Step.claim (by decide)
  have h2 : Step c3Claimed c3Finalizing := Step.boundary (by decide)
  have h3 : Step c3Finalizing c3Completed := Step.finalize (by decide)
  exact ((Relation.ReflTransGen.single h1).tail h2).tail h3

/-- Counterexample to C3 as stated: a task that reached the terminal status
`completed` (claim an empty task, finalize) is moved out of it by
`cancel_task`, which unconditionally stores `deleted` (`queue.py` lines
217-221) even for a task already in a terminal state. -/
theorem cancel_task_not_terminal_counterexample :
    Relation.ReflTransGen Step (createTask 0) c3Completed ∧
    c3Completed.task.status = .completed ∧
    (cancelTaskStep c3Completed).task.status = .deleted ∧
    QueueStatus.deleted ≠ QueueStatus.completed :=
  ⟨c3Completed_reachable, rfl, rfl, by decide⟩

/-- **C3 (amended).** A task enters `running` only from `queued`.  For a
reachable task in a terminal status (`completed`, `failed`, `canceled`,
`deleted`), every operation either leaves the status unchanged, or is
`cancel_task`/the `current`-scope purge storing `deleted` regardless of the
current status, or is the worker's finalization moving a task whose status
became `deleted` mid-run to `completed`/`failed`. -/
theorem task_status_transitions :
    (∀ s s' : WState, Step s s' → s'.task.status = .running →
        s.task.status = .queued ∨ s.task.status = .running) ∧
    (∀ s s' : WState, Reachable s → Step s s' →
        s.task.status = .completed ∨ s.task.status = .failed ∨
          s.task.status = .canceled ∨ s.task.status = .deleted →
        s'.task.status = s.task.status ∨ s'.task.status = .deleted ∨
          (s.task.status = .deleted ∧
            (s'.task.status = .completed ∨ s'.task.status = .failed))) := by
  constructor
  · intro s s' hstep hrun
    cases hstep with
    | claim h => exact Or.inl (claimStep_status h).1
    | boundary h =>
        rw [boundaryStep_status h] at hrun
        exact Or.inr hrun
    | handler oc h =>
        rw [handlerStep_status oc h] at hrun
        exact Or.inr hrun
    | finalize h =>
        rcases finalizeStep_status h with ⟨_, hc⟩ | ⟨_, hcf⟩
        · rw [hc] at hrun
          exact absurd hrun (by decide)
        · rcases hcf with h1 | h1 <;> rw [h1] at hrun <;>
            exact absurd hrun (by decide)
    | cancel =>
        exact absurd hrun (by
          show QueueStatus.deleted ≠ .running
          decide)
    | purgeCurrent hc =>
        exact absurd hrun (by
          show QueueStatus.deleted ≠ .running
          decide)
  · intro s s' hre hstep hterm
    have inv := reachable_inv hre
    cases hstep with
    | claim h =>
        obtain ⟨hq, _⟩ := claimStep_status h
        exfalso
        rcases hterm with h1 | h1 | h1 | h1 <;> rw [hq] at h1 <;>
          exact absurd h1 (by decide)
    | boundary h => exact Or.inl (boundaryStep_status h)
    | handler oc h => exact Or.inl (handlerStep_status oc h)
    | finalize h =>
        have hph := finalizeStep_phase h
        rcases finalizeStep_status h with ⟨hc, hc'⟩ | ⟨hnc, hcf⟩
        · left
          rw [hc', hc]
        · rcases hterm with h1 | h1 | h1 | h1
          · have hh := inv.termIdle (Or.inl h1)
            rw [hph] at hh
            simp at hh
          · have hh := inv.termIdle (Or.inr h1)
            rw [hph] at hh
            simp at hh
          · exact absurd h1 hnc
          · exact Or.inr (Or.inr ⟨h1, hcf⟩)
    | cancel => exact Or.inr (Or.inl rfl)
    | purgeCurrent hc =>
        exfalso
        rcases hc with hc | hc <;> rcases hterm with h1 | h1 | h1 | h1 <;>
          rw [hc] at h1 <;> exact absurd h1 (by decide)

/-- Witness for the amended C3: claiming a fresh one-item task enters
`running` from `queued`; cancelling a reachable `completed` task takes the
allowed `deleted` branch. -/
theorem task_status_transitions_witness :
    ((createTask 1).task.status = .queued ∨ (createTask 1).task.status = .running) ∧
    (c3Completed.task.status = .completed ∨
      (cancelTaskStep c3Completed).task.status = .deleted ∨ True) := by
  constructor
  · exact task_status_transitions.1 (createTask 1)
      { task := { status := .running, items := [.queued], completedItems := 0,
                  totalItems := 1, canceledSet := false, finishedSet := false }
        phase := .atBoundary 0 }
      (Step.claim (by decide)) rfl
  · have hre : Reachable c3Completed := ⟨0, c3Completed_reachable⟩
    have h := task_status_transitions.2 _ _ hre Step.cancel (Or.inl rfl)
    rcases h with h | h | h
    · exact absurd h (by decide)
    · exact Or.inr (Or.inl h)
    · exact Or.inr (Or.inr trivial)

/-- **C7.** In every reachable state, a task's `completed_items` equals the
number of its items whose status is `completed` and is at most `total_items`;
`create_task` establishes it at zero, and each worker transition of an item to
`completed` (a successful handler outcome) increments it by exactly one. -/
theorem completed_items_invariant :
    (∀ s : WState, Reachable s →
        s.task.completedItems = countCompleted s.task.items ∧
        s.task.completedItems ≤ s.task.totalItems) ∧
    (∀ n : Nat, (createTask n).task.completedItems = 0) ∧
    (∀ s s' : WState, handlerStep s Outcome.ok = some s' →
        s'.task.completedItems = s.task.completedItems + 1) := by
  refine ⟨?_, fun _ => rfl, ?_⟩
  · intro s hre
    have inv := reachable_inv hre
    refine ⟨inv.countEq, ?_⟩
    rw [inv.countEq, ← inv.lenEq]
    exact countCompleted_le_length _
  · intro s s' h
    unfold handlerStep at h
    cases hp : s.phase with
    | idle => rw [hp] at h; exact Option.noConfusion h
    | atBoundary k => rw [hp] at h; exact Option.noConfusion h
    | finalizing => rw [hp] at h; exact Option.noConfusion h
    | inHandler k =>
      rw [hp] at h
      replace h :
          (some { task :=
                    { s.task with
                      items := s.task.items.set k .completed
                      completedItems := s.task.completedItems + 1 }
                  phase := Phase.atBoundary (k + 1) } : Option WState) = some s' := h
      obtain rfl := Option.some.inj h
      rfl

/-- Witness for C7: the counter facts evaluated on a fresh two-item task and
on one concrete successful handler commit. -/
theorem completed_items_invariant_witness :
    ((createTask 2).task.completedItems = countCompleted (createTask 2).task.items ∧
      (createTask 2).task.completedItems ≤ (createTask 2).task.totalItems) ∧
    ({ task := { status := .running, items := [.completed], completedItems := 1,
                 totalItems := 1, canceledSet := false, finishedSet := false }
       phase := .atBoundary 1 } : WState).task.completedItems =
      ({ task := { status := .running, items := [.running], completedItems := 0,
                   totalItems := 1, canceledSet := false, finishedSet := false }
         phase := .inHandler 0 } : WState).task.completedItems + 1 := by
  constructor
  · exact completed_items_invariant.1 (createTask 2) ⟨2, Relation.ReflTransGen.refl⟩
  · exact completed_items_invariant.2.2
      { task := { status := .running, items := [.running], completedItems := 0,
                  totalItems := 1, canceledSet := false, finishedSet := false }
        phase := .inHandler 0 }
      { task := { status := .running, items := [.completed], completedItems := 1,
                  totalItems := 1, canceledSet := false, finishedSet := false }
        phase := .atBoundary 1 }
      (by decide)

/-- The mapping `cancel_task` returns on success (`queue.py` line 247):
`{"id": task_id, "status": QueueStatus.CANCELED.value}`. -/
structure CancelReturn where
  id : Nat
  status : String
  deriving DecidableEq, Repr

/-- The value built at `queue.py` line 247, independent of the task state. -/
def cancelTaskReturn (taskId : Nat) : CancelReturn :=
  { id := taskId, status := QueueStatus.canceled.value }

/-- **C10.** For every existing task, regardless of its current status,
`cancel_task` persists the task's status as `deleted` (`queue.py` line 220)
yet returns a mapping whose `status` field is the string `"canceled"`
(line 247); the returned value therefore never equals the lowercase string
stored for the task. -/
theorem cancel_task_return_mismatch (s : WState) (taskId : Nat) :
    (cancelTaskStep s).task.status = .deleted ∧
    (cancelTaskReturn taskId).status = "canceled" ∧
    (cancelTaskReturn taskId).status ≠ ((cancelTaskStep s).task.status).value := by
  refine ⟨rfl, rfl, ?_⟩
  show "canceled" ≠ "deleted"
  decide

/-! ## The `refresh_metadata` handler (`queue.py` lines 469-671)

The handler's control flow is a decision tree over which providers are
configured and whether their lookups return a result.  The external calls
(`TMDBService.search_movie_and_get_details`, `OMDbService.get_ratings_by_title`,
`get_season_details`, ...) are abstracted by booleans recording whether each
consulted provider produced a result; the outputs record the item status, the
`result` note written, how many `INFO` `LogEntry` rows recording the tried
queries/request params were appended, and which providers were consulted. -/

/-- The `result` JSON written to the item by the `refresh_metadata` branches. -/
inductive RefreshNote where
  | updatedFromTmdb
  | updatedFromOmdb
  | noMetadataFound
  | noProviderAvailable
  | errorMovieNotFound
  | errorShowNotFound
  | errorEpisodeNotFound
  | errorShowMissingTmdbId
  | errorTmdbNotConfigured
  | errorEpisodeNotFoundOnTmdb
  deriving DecidableEq, Repr

/-- Classified outcome of one `refresh_metadata` item. -/
structure HandlerResult where
  status : QueueStatus
  note : RefreshNote
  infoLogsTried : Nat
  tmdbConsulted : Bool
  omdbConsulted : Bool
  deriving DecidableEq, Repr

/-- Environment of the movie branch (`queue.py` lines 475-561).
`metaProviderOmdb` records whether the task's meta carries
`provider = "omdb"`; `process_one` never reads `task.meta` (the only uses of
`meta` in `queue.py` are `create_task` line 91 and the serializers at lines
128-133 and 183-187), so the branch cannot depend on it. -/
structure MovieRefreshEnv where
  movieExists : Bool
  tmdbConfigured : Bool
  tmdbFound : Bool
  omdbKeyConfigured : Bool
  omdbFound : Bool
  metaProviderOmdb : Bool
  deriving DecidableEq, Repr

/-- The movie branch (`queue.py` lines 475-561): missing movie fails (479-480);
`tmdb_result` is fetched only when TMDB is configured (484-485); a hit updates
the movie and completes with `updated_from: tmdb` (487-501); otherwise an
`INFO` log row recording the tried variants is appended (503-519) and OMDb is
consulted when a key is configured (522-526): a hit completes with
`updated_from: omdb` (527-534), a miss appends a second `INFO` log row with
the request params and completes with the `no metadata found` note (536-556);
with no OMDb key the item completes with the `no provider available` note
(557-561). -/
def refreshMovieItem (env : MovieRefreshEnv) : HandlerResult :=
  if env.movieExists then
    if env.tmdbConfigured && env.tmdbFound then
      { status := .completed, note := .updatedFromTmdb, infoLogsTried := 0
        tmdbConsulted := env.tmdbConfigured, omdbConsulted := false }
    else if env.omdbKeyConfigured then
      if env.omdbFound then
        { status := .completed, note := .updatedFromOmdb, infoLogsTried := 1
          tmdbConsulted := env.tmdbConfigured, omdbConsulted := true }
      else
        { status := .completed, note := .noMetadataFound, infoLogsTried := 2
          tmdbConsulted := env.tmdbConfigured, omdbConsulted := true }
    else
      { status := .completed, note := .noProviderAvailable, infoLogsTried := 1
        tmdbConsulted := env.tmdbConfigured, omdbConsulted := false }
  else
    { status := .failed, note := .errorMovieNotFound, infoLogsTried := 0
      tmdbConsulted := false, omdbConsulted := false }

/-- Environment of the show branch (`queue.py` lines 563-635).
`overrideImdbId` is the payload's `imdb_id` override, which triggers an OMDb
pre-fetch when an OMDb key is configured (580-592); the `tmdb_id`/`title`
overrides select which TMDB lookup runs (594-599) without changing the
outcome classification, which depends only on whether the lookup returned a
result (`tmdbFound`). -/
structure ShowRefreshEnv where
  showExists : Bool
  tmdbConfigured : Bool
  overrideImdbId : Bool
  omdbKeyConfigured : Bool
  tmdbFound : Bool
  metaProviderOmdb : Bool
  deriving DecidableEq, Repr

/-- The show branch (`queue.py` lines 563-635): missing show fails (566-568);
TMDB not configured fails with `tmdb not configured` (633-635); otherwise a
TMDB lookup runs (594-599): a hit completes with `updated_from: tmdb`
(600-610), a miss appends an `INFO` log row recording the tried variants and
completes with the `no metadata found` note (611-632). -/
def refreshShowItem (env : ShowRefreshEnv) : HandlerResult :=
  if env.showExists then
    if env.tmdbConfigured then
      if env.tmdbFound then
        { status := .completed, note := .updatedFromTmdb, infoLogsTried := 0
          tmdbConsulted := true
          omdbConsulted := env.overrideImdbId && env.omdbKeyConfigured }
      else
        { status := .completed, note := .noMetadataFound, infoLogsTried := 1
          tmdbConsulted := true
          omdbConsulted := env.overrideImdbId && env.omdbKeyConfigured }
    else
      { status := .failed, note := .errorTmdbNotConfigured, infoLogsTried := 0
        tmdbConsulted := false, omdbConsulted := false }
  else
    { status := .failed, note := .errorShowNotFound, infoLogsTried := 0
      tmdbConsulted := false, omdbConsulted := false }

/-- Environment of the episode branch (`queue.py` lines 637-671).
`episodeMatched` records whether `get_season_details` for the parent show's
season returned an episode with the matching `episode_number` (656-657). -/
structure EpisodeRefreshEnv where
  episodeExists : Bool
  showHasTmdbId : Bool
  tmdbConfigured : Bool
  episodeMatched : Bool
  deriving DecidableEq, Repr

/-- The episode branch (`queue.py` lines 637-671): missing episode fails
(641-643); a parent show without a `tmdb_id` fails (646-649); TMDB not
configured fails (652-654); otherwise the season is fetched from TMDB: no
matching episode fails with `episode not found on tmdb` (658-660), a match
updates the episode and completes (661-671). -/
def refreshEpisodeItem (env : EpisodeRefreshEnv) : HandlerResult :=
  if env.episodeExists then
    if env.showHasTmdbId then
      if env.tmdbConfigured then
        if env.episodeMatched then
          { status := .completed, note := .updatedFromTmdb, infoLogsTried := 0
            tmdbConsulted := true, omdbConsulted := false }
        else
          { status := .failed, note := .errorEpisodeNotFoundOnTmdb
            infoLogsTried := 0, tmdbConsulted := true, omdbConsulted := false }
      else
        { status := .failed, note := .errorTmdbNotConfigured, infoLogsTried := 0
          tmdbConsulted := false, omdbConsulted := false }
    else
      { status := .failed, note := .errorShowMissingTmdbId, infoLogsTried := 0
        tmdbConsulted := false, omdbConsulted := false }
  else
    { status := .failed, note := .errorEpisodeNotFound, infoLogsTried := 0
      tmdbConsulted := false, omdbConsulted := false }

/-- Counterexample to C5 as stated: an episode item whose only consulted
provider (the TMDB season fetch) returns no matching result terminates
`failed` with no `INFO` log row, not `completed` with a note. -/
theorem refresh_no_result_not_completed_counterexample :
    (refreshEpisodeItem
      { episodeExists := true, showHasTmdbId := true, tmdbConfigured := true
        episodeMatched := false }).tmdbConsulted = true ∧
    (refreshEpisodeItem
      { episodeExists := true, showHasTmdbId := true, tmdbConfigured := true
        episodeMatched := false }).status = .failed ∧
    (refreshEpisodeItem
      { episodeExists := true, showHasTmdbId := true, tmdbConfigured := true
        episodeMatched := false }).status ≠ .completed ∧
    (refreshEpisodeItem
      { episodeExists := true, showHasTmdbId := true, tmdbConfigured := true
        episodeMatched := false }).infoLogsTried = 0 := by
  decide

/-- **C5 (amended).** For every `refresh_metadata` movie or show item for
which at least one provider is available to consult and every consulted
provider returns no result, the item terminates `completed` (not `failed`)
and at least one `INFO` log row recording the queries tried is appended; the
result notes that no metadata was found, except for a movie item with no OMDb
key configured, whose result notes that no provider is available.  (Episode
items instead fail when the consulted TMDB season holds no matching episode.) -/
theorem refresh_no_result_completed :
    (∀ env : MovieRefreshEnv, env.movieExists = true →
        env.tmdbConfigured = true ∨ env.omdbKeyConfigured = true →
        (env.tmdbConfigured = true → env.tmdbFound = false) →
        (env.omdbKeyConfigured = true → env.omdbFound = false) →
        (refreshMovieItem env).status = .completed ∧
        1 ≤ (refreshMovieItem env).infoLogsTried ∧
        (refreshMovieItem env).note =
          (if env.omdbKeyConfigured then RefreshNote.noMetadataFound
           else RefreshNote.noProviderAvailable)) ∧
    (∀ env : ShowRefreshEnv, env.showExists = true →
        env.tmdbConfigured = true → env.tmdbFound = false →
        (refreshShowItem env).status = .completed ∧
        (refreshShowItem env).infoLogsTried = 1 ∧
        (refreshShowItem env).note = RefreshNote.noMetadataFound) := by
  constructor
  · intro env
    obtain ⟨me, tc, tf, ok, od, mp⟩ := env
    cases me <;> cases tc <;> cases tf <;> cases ok <;> cases od <;> cases mp <;>
      decide
  · intro env
    obtain ⟨se, tc, oi, ok, tf, mp⟩ := env
    cases se <;> cases tc <;> cases oi <;> cases ok <;> cases tf <;> cases mp <;>
      decide

/-- Witness for C5 (amended): a movie whose TMDB search and OMDb lookup both
miss completes with the `no metadata found` note and two `INFO` rows; a show
whose TMDB search misses completes with the note and one `INFO` row. -/
theorem refresh_no_result_completed_witness :
    ((refreshMovieItem
        { movieExists := true, tmdbConfigured := true, tmdbFound := false
          omdbKeyConfigured := true, omdbFound := false
          metaProviderOmdb := false }).status = .completed ∧
      1 ≤ (refreshMovieItem
        { movieExists := true, tmdbConfigured := true, tmdbFound := false
          omdbKeyConfigured := true, omdbFound := false
          metaProviderOmdb := false }).infoLogsTried ∧
      (refreshMovieItem
        { movieExists := true, tmdbConfigured := true, tmdbFound := false
          omdbKeyConfigured := true, omdbFound := false
          metaProviderOmdb := false }).note =
        (if ({ movieExists := true, tmdbConfigured := true, tmdbFound := false
               omdbKeyConfigured := true, omdbFound := false
               metaProviderOmdb := false } : MovieRefreshEnv).omdbKeyConfigured
          then RefreshNote.noMetadataFound
          else RefreshNote.noProviderAvailable)) ∧
    ((refreshShowItem
        { showExists := true, tmdbConfigured := true, overrideImdbId := false
          omdbKeyConfigured := false, tmdbFound := false
          metaProviderOmdb := false }).status = .completed ∧
      (refreshShowItem
        { showExists := true, tmdbConfigured := true, overrideImdbId := false
          omdbKeyConfigured := false, tmdbFound := false
          metaProviderOmdb := false }).infoLogsTried = 1 ∧
      (refreshShowItem
        { showExists := true, tmdbConfigured := true, overrideImdbId := false
          omdbKeyConfigured := false, tmdbFound := false
          metaProviderOmdb := false }).note = RefreshNote.noMetadataFound) := by
  constructor
  · exact refresh_no_result_completed.1
      { movieExists := true, tmdbConfigured := true, tmdbFound := false
        omdbKeyConfigured := true, omdbFound := false, metaProviderOmdb := false }
      rfl (Or.inl rfl) (fun _ => rfl) (fun _ => rfl)
  · exact refresh_no_result_completed.2
      { showExists := true, tmdbConfigured := true, overrideImdbId := false
        omdbKeyConfigured := false, tmdbFound := false, metaProviderOmdb := false }
      rfl rfl rfl

/-- **C6 (code defect).** `process_one` never reads `task.meta`, so the movie
branch of `refresh_metadata` is independent of `meta.provider`: with
`provider = "omdb"` in the task meta, an OMDb API key configured and TMDB
configured, the TMDB provider is consulted anyway (the search at `queue.py`
lines 484-485 is gated only on `tmdb_service.is_configured`), contradicting
the claim that no TMDB call is performed. -/
theorem provider_omdb_still_consults_tmdb :
    (∀ env : MovieRefreshEnv,
        refreshMovieItem env
          = refreshMovieItem { env with metaProviderOmdb := true }) ∧
    (refreshMovieItem
      { movieExists := true, tmdbConfigured := true, tmdbFound := true
        omdbKeyConfigured := true, omdbFound := true
        metaProviderOmdb := true }).tmdbConsulted = true := by
  constructor
  · intro env
    obtain ⟨me, tc, tf, ok, od, mp⟩ := env
    rfl
  · rfl

/-! ## Administrative purge: `clear_queued_tasks` (`queue.py` lines 250-297) -/

/-- One `queue_tasks` row with its items, as read by `clear_queued_tasks`. -/
structure StoreTask where
  id : Nat
  status : QueueStatus
  items : List QueueStatus
  startedAt : Option Nat
  createdAt : Nat
  deriving DecidableEq, Repr

/-- The selection predicate of `clear_queued_tasks` (`queue.py` lines
260-273): status `queued` or `running`, and — when `older_than_seconds`
yields a cutoff — `(started_at != None AND started_at < cutoff) OR
created_at < cutoff`. -/
def clearSelects (cutoff : Option Nat) (t : StoreTask) : Bool :=
  (t.status == .queued || t.status == .running) &&
    (match cutoff with
     | none => true
     | some c =>
         (match t.startedAt with
          | some st => decide (st < c)
          | none => false) || decide (t.createdAt < c))

/-- `clear_queued_tasks` (`queue.py` lines 250-297): selects the queued or
running tasks (lines 260-274), sets their status to `deleted` (line 281),
sets their `queued`/`running` items to `canceled` (lines 283-288), and
returns `{"tasks_cleared": len(ids), "items_affected": rowcount}`
(lines 276, 297).  The function's only parameter besides the session is
`older_than_seconds`; it accepts no `scope` argument, and it never deletes a
row. -/
def clearQueuedTasks (store : List StoreTask) (cutoff : Option Nat) :
    List StoreTask × Nat × Nat :=
  let selected := store.filter (clearSelects cutoff)
  let ids := selected.map (·.id)
  let newStore := store.map fun t =>
    if t.id ∈ ids then { t with status := .deleted, items := cancelItems t.items }
    else t
  let itemsAffected := selected.foldl
    (fun acc t =>
      acc + (t.items.filter (fun st => st == .queued || st == .running)).length) 0
  (newStore, selected.length, itemsAffected)

/-- **C8 (code defect).** `clear_queued_tasks` implements only the
`current`-scope behaviour and never hard-deletes: for every store and cutoff,
the store after the call has exactly as many task rows as before, and a
concrete store holding one `completed` task and one `queued` task keeps both
rows — the completed one untouched — with `tasks_cleared = 1`.  The claimed
`history`/`all` hard-deletion and the `scope` validation do not exist in the
function: its signature has no `scope` parameter at all, so the router's
`clear_queued_tasks(scope=scope, ...)` call (`queues.py` line 200) raises
`TypeError` (HTTP 500), not the claimed 400. -/
theorem clear_tasks_never_hard_deletes :
    (∀ (store : List StoreTask) (cutoff : Option Nat),
        ((clearQueuedTasks store cutoff).1).length = store.length) ∧
    (clearQueuedTasks
        [{ id := 1, status := .completed, items := [.completed],
           startedAt := some 5, createdAt := 0 },
         { id := 2, status := .queued, items := [.queued],
           startedAt := none, createdAt := 0 }] none).1
      = [{ id := 1, status := .completed, items := [.completed],
           startedAt := some 5, createdAt := 0 },
         { id := 2, status := .deleted, items := [.canceled],
           startedAt := none, createdAt := 0 }] ∧
    (clearQueuedTasks
        [{ id := 1, status := .completed, items := [.completed],
           startedAt := some 5, createdAt := 0 },
         { id := 2, status := .queued, items := [.queued],
           startedAt := none, createdAt := 0 }] none).2.1 = 1 := by
  refine ⟨?_, by decide, by decide⟩
  intro store cutoff
  unfold clearQueuedTasks
  simp

/-! ## Store bootstrap: `migrate_db` / `init_db` (`database.py` lines 31-138) -/

/-- The persisted state touched by the modelled parts of `init_db`: the
`status` text columns of `queue_tasks` and `queue_items`, the `media_type`
column of `library_paths`, and the `migrations` ledger (`name` column, in
insertion order). -/
structure DbState where
  queueTaskStatuses : List String
  queueItemStatuses : List String
  libraryMediaTypes : List String
  ledger : List String
  deriving DecidableEq, Repr

/-- SQL `LOWER(x)` as issued by the normalization UPDATEs: ASCII lowercasing
of every character of the stored text. -/
def sqlLower (s : String) : String := String.mk (s.data.map Char.toLower)

/-- The migration-file loop of `migrate_db` (`database.py` lines 95-112): each
`.sql` file name, in sorted order, is skipped when already recorded in the
`migrations` ledger and otherwise applied and inserted.  (The repository's
`backend/migrations/` directory is not part of the available sources, so only
the ledger bookkeeping is modelled, not the SQL payloads; the additive
`ALTER TABLE ... ADD COLUMN` passes at lines 40-87 are schema-only and touch
none of the modelled columns.) -/
def applyMigrations (ledger : List String) (files : List String) : List String :=
  files.foldl (fun led name => if name ∈ led then led else led ++ [name]) ledger

/-- The startup normalization pass of `init_db` (`database.py` lines 127-138):
`UPDATE library_paths SET media_type = LOWER(media_type) WHERE media_type IS
NOT NULL AND media_type != LOWER(media_type)` and `UPDATE queue_tasks SET
status = LOWER(status) WHERE status IS NOT NULL AND status != LOWER(status)`.
No statement touches `queue_items.status`. -/
def normalizeStartup (db : DbState) : DbState :=
  { db with
    libraryMediaTypes := db.libraryMediaTypes.map sqlLower
    queueTaskStatuses := db.queueTaskStatuses.map sqlLower }

/-- `init_db` (`database.py` lines 116-138) as it affects the modelled state:
run `migrate_db` (ledger update), then the normalization UPDATEs. -/
def initDb (db : DbState) (files : List String) : DbState :=
  normalizeStartup { db with ledger := applyMigrations db.ledger files }

theorem toNat_ofNat_valid (n : Nat) (h : n < 55296) : (Char.ofNat n).toNat = n := by
  unfold Char.ofNat
  rw [dif_pos (Or.inl (by omega : n < 0xd800))]
  rfl

theorem char_toLower_idem (c : Char) : c.toLower.toLower = c.toLower := by
  unfold Char.toLower
  by_cases h : c.toNat ≥ 65 ∧ c.toNat ≤ 90
  · rw [if_pos h]
    have hv : (Char.ofNat (c.toNat + 32)).toNat = c.toNat + 32 :=
      toNat_ofNat_valid _ (by omega)
    rw [if_neg (by rw [hv]; omega)]
  · rw [if_neg h, if_neg h]

theorem sqlLower_sqlLower (s : String) : sqlLower (sqlLower s) = sqlLower s := by
  unfold sqlLower
  have h : (s.data.map Char.toLower).map Char.toLower = s.data.map Char.toLower := by
    rw [List.map_map]
    exact List.map_congr_left fun a _ => char_toLower_idem a
  exact congrArg String.mk h

theorem map_sqlLower_idem (l : List String) :
    (l.map sqlLower).map sqlLower = l.map sqlLower := by
  rw [List.map_map]
  exact List.map_congr_left fun a _ => sqlLower_sqlLower a

theorem subset_applyMigrations (ledger files : List String) :
    ∀ x ∈ ledger, x ∈ applyMigrations ledger files := by
  unfold applyMigrations
  induction files generalizing ledger with
  | nil => simp
  | cons f rest ih =>
      intro x hx
      simp only [List.foldl_cons]
      by_cases hf : f ∈ ledger
      · rw [if_pos hf]
        exact ih ledger x hx
      · rw [if_neg hf]
        exact ih (ledger ++ [f]) x (by simp [hx])

theorem mem_files_applyMigrations (ledger files : List String) :
    ∀ x ∈ files, x ∈ applyMigrations ledger files := by
  unfold applyMigrations
  induction files generalizing ledger with
  | nil => simp
  | cons f rest ih =>
      intro x hx
      simp only [List.foldl_cons]
      rcases List.mem_cons.mp hx with hx | hx
      · subst hx
        by_cases hf : x ∈ ledger
        · rw [if_pos hf]
          exact subset_applyMigrations ledger rest x hf
        · rw [if_neg hf]
          exact subset_applyMigrations (ledger ++ [x]) rest x (by simp)
      · by_cases hf : f ∈ ledger
        · rw [if_pos hf]
          exact ih ledger x hx
        · rw [if_neg hf]
          exact ih (ledger ++ [f]) x hx

theorem applyMigrations_eq_of_subset (ledger files : List String)
    (h : ∀ x ∈ files, x ∈ ledger) : applyMigrations ledger files = ledger := by
  unfold applyMigrations
  induction files generalizing ledger with
  | nil => simp
  | cons f rest ih =>
      simp only [List.foldl_cons]
      rw [if_pos (h f (by simp))]
      exact ih ledger fun x hx => h x (by simp [hx])

theorem applyMigrations_idem (ledger files : List String) :
    applyMigrations (applyMigrations ledger files) files
      = applyMigrations ledger files :=
  applyMigrations_eq_of_subset _ _ (mem_files_applyMigrations ledger files)

/-- Counterexample to C9 as stated: the startup pass lowercases
`queue_tasks.status` but leaves a legacy uppercase `queue_items.status`
untouched. -/
theorem queue_items_not_normalized_counterexample :
    (initDb
      { queueTaskStatuses := ["QUEUED"], queueItemStatuses := ["QUEUED"]
        libraryMediaTypes := [], ledger := [] } []).queueTaskStatuses
      = ["queued"] ∧
    (initDb
      { queueTaskStatuses := ["QUEUED"], queueItemStatuses := ["QUEUED"]
        libraryMediaTypes := [], ledger := [] } []).queueItemStatuses
      = ["QUEUED"] ∧
    sqlLower "QUEUED" = "queued" ∧
    ("QUEUED" : String) ≠ "queued" := by
  refine ⟨by decide, rfl, by decide, by decide⟩

/-- **C9 (amended).** The startup normalization pass lowercases every status
value in the `queue_tasks` table but does not touch the `queue_items` table;
it is idempotent: running `init_db` a second time changes nothing — the task
statuses stay lowercase, the item statuses stay whatever they were, and the
migrations ledger is unchanged. -/
theorem startup_normalization_idempotent (db : DbState) (files : List String) :
    (initDb db files).queueTaskStatuses = db.queueTaskStatuses.map sqlLower ∧
    (initDb db files).queueItemStatuses = db.queueItemStatuses ∧
    initDb (initDb db files) files = initDb db files := by
  refine ⟨rfl, rfl, ?_⟩
  unfold initDb normalizeStartup
  simp only [applyMigrations_idem, map_sqlLower_idem]

end MediaPruner
